import Mathlib

/-!
Shallow embedding of `crates/nostr-sdk-db/src/index.rs` (the in-memory indexing
engine `DatabaseIndexes`) and theorems checking its natural-language
specification against it.

Modelling conventions:

* Event identifiers, public keys, kinds, tag letters (`Alphabet`) and
  timestamps are modelled as `Nat`; tag values as `String`.
* `SmallerIdentifier` is the numeric value of the 8-byte big-endian array the
  source stores (`u64::to_be_bytes`); `toBEBytes 8` recovers the byte array,
  and the agreement between numeric order and lexicographic byte order is
  proved with the surrogate-key theorems.
* A Rust `HashMap<K, HashSet<MappingIdentifier>>` index is modelled as a finite
  set of `(key, mid)` pairs: the bucket of `k` is the set of `mid` with
  `(k, mid)` in the set, an absent key is an empty bucket; this matches both
  the `entry().and_modify().or_insert_with()` writes and the `get` reads of the
  source.
* The `HashMap<Alphabet, HashMap<MappingIdentifier, HashSet<String>>>` tag
  index is a finite set of `(letter, mid, values)` triples; `HashMap::insert`
  replaces the entry with the same `(letter, mid)`.
* The primary mapping `HashMap<SmallerIdentifier, EventId>` is a function
  `SmallerIdentifier → Option EventId`, insertion being pointwise update.
* The `AtomicU64` counter is a `Nat` with an explicit `% 2 ^ 64` at the
  wrapping increment performed by `fetch_add`.
* The `async` methods serialize each whole operation through the per-structure
  locks; the engine is modelled by explicit state passing, one step per
  operation.
* The `BTreeSet<MappingIdentifier>` of matching identifiers iterates in
  ascending `Ord` order; this is modelled by sorting the underlying finite set
  with the translated order `midLe`.
-/

namespace Nostr

abbrev EventId := Nat

abbrev SmallerIdentifier := Nat

/-- Composite ordering key stored in every secondary index
(`MappingIdentifier` in the source): event timestamp plus surrogate key. The
`sid` field is a `SmallerIdentifier`, spelled `Nat` directly so that
arithmetic automation sees through it. -/
@[ext]
structure MappingIdentifier where
  timestamp : Nat
  sid : Nat
deriving DecidableEq

/-- Order translated from `impl Ord for MappingIdentifier`: timestamp
descending first (`other.timestamp.cmp(&self.timestamp)`), surrogate key
ascending as tiebreak. `midLe a b` holds when `a` sorts before or equal to `b`,
i.e. when `a` is the newer key. -/
def midLe (a b : MappingIdentifier) : Prop :=
  b.timestamp < a.timestamp ∨ (a.timestamp = b.timestamp ∧ a.sid ≤ b.sid)

instance : DecidableRel midLe := fun a b =>
  decidable_of_iff (b.timestamp < a.timestamp ∨ (a.timestamp = b.timestamp ∧ a.sid ≤ b.sid))
    Iff.rfl

instance : IsTotal MappingIdentifier midLe := by
  constructor
  intro a b
  simp only [midLe]
  omega

instance : IsTrans MappingIdentifier midLe := by
  constructor
  intro a b c hab hbc
  simp only [midLe] at hab hbc ⊢
  omega

instance : IsAntisymm MappingIdentifier midLe := by
  constructor
  intro a b hab hba
  have h : a.timestamp = b.timestamp ∧ a.sid = b.sid := by
    simp only [midLe] at hab hba
    omega
  cases a
  cases b
  simp_all

/-- Sorted list of a multiset of composite keys, in ascending `Ord` order
(newest first): the iteration order of `BTreeSet<MappingIdentifier>`. -/
def sortedList (s : Multiset MappingIdentifier) : List MappingIdentifier :=
  Quot.liftOn s (fun l => l.insertionSort midLe) fun l₁ l₂ h =>
    List.eq_of_perm_of_sorted
      ((List.perm_insertionSort midLe l₁).trans (h.trans (List.perm_insertionSort midLe l₂).symm))
      (List.sorted_insertionSort midLe l₁) (List.sorted_insertionSort midLe l₂)

/-- Iteration of the `BTreeSet<MappingIdentifier>` of matching composite keys:
its elements in ascending `Ord` order, i.e. newest first. -/
def sortedMids (m : Finset MappingIdentifier) : List MappingIdentifier :=
  sortedList m.val

/-- Modelled from the spec: the consumed external `Event` type (defined in the
`nostr` crate of this repository, outside the indexing engine's own file). It
supplies an identifier, an author identifier, a kind, a creation timestamp, the
tag collection as grouped by `build_tags_index` (tag letter ↦ set of values the
event carries for that letter), and the two derived boolean properties
`is_expired` and `is_ephemeral`. -/
structure Event where
  id : EventId
  pubkey : Nat
  kind : Nat
  created_at : Nat
  tags : List (Nat × Finset String)
  expired : Bool
  ephemeral : Bool

def Event.is_expired (e : Event) : Bool := e.expired

def Event.is_ephemeral (e : Event) : Bool := e.ephemeral

def Event.build_tags_index (e : Event) : List (Nat × Finset String) := e.tags

/-- Modelled from the spec: the `Filter` type consumed by `query` (defined in
the `nostr` crate of this repository): optional explicit id-set (returned
verbatim, order kept), kind-set, author-set, optional time bounds, generic tag
constraints (letter ↦ required values) and an optional result limit. The
source's `until` field is spelled `until_`, since `until` is reserved in
Lean. -/
structure Filter where
  ids : List EventId
  kinds : Finset Nat
  authors : Finset Nat
  since : Option Nat
  until_ : Option Nat
  generic_tags : List (Nat × Finset String)
  limit : Option Nat

/-- Event index result: `to_store` is the admission flag, `to_discard` the set
of superseded events to remove. -/
structure EventIndexResult where
  to_store : Bool
  to_discard : Finset EventId
deriving DecidableEq

/-- The modulus 2 ^ 64 of the `AtomicU64` surrogate-key counter. -/
def u64Mod : Nat := 2 ^ 64

/-- The engine state: counter, primary mapping and the four secondary
indexes. -/
structure DatabaseIndexes where
  counter : Nat
  mapping : SmallerIdentifier → Option EventId
  kinds_index : Finset (Nat × MappingIdentifier)
  authors_index : Finset (Nat × MappingIdentifier)
  created_at_index : Finset (Nat × MappingIdentifier)
  tags_index : Finset (Nat × MappingIdentifier × Finset String)

/-- `DatabaseIndexes::new` / `Default`: empty mapping and indexes, counter
zero. -/
def DatabaseIndexes.new : DatabaseIndexes :=
  { counter := 0
    mapping := fun _ => none
    kinds_index := ∅
    authors_index := ∅
    created_at_index := ∅
    tags_index := ∅ }

/-- `next_sid`: `fetch_add(1, SeqCst)` returns the previous counter value,
which becomes the new surrogate key, and stores the incremented value, wrapping
at 2 ^ 64. -/
def DatabaseIndexes.next_sid (s : DatabaseIndexes) : SmallerIdentifier × DatabaseIndexes :=
  (s.counter, { s with counter := (s.counter + 1) % u64Mod })

/-- One `tag_map.insert(mid, set)` step of `index_event_tags`: the entry with
the same letter and composite key, if any, is replaced. -/
def insertTagEntry (ti : Finset (Nat × MappingIdentifier × Finset String)) (a : Nat)
    (mid : MappingIdentifier) (vals : Finset String) :
    Finset (Nat × MappingIdentifier × Finset String) :=
  insert (a, mid, vals) (ti.filter (fun q => ¬(q.1 = a ∧ q.2.1 = mid)))

/-- `index_event_tags`: fan the event's `build_tags_index` out into the tag
index. -/
def index_event_tags (ti : Finset (Nat × MappingIdentifier × Finset String))
    (mid : MappingIdentifier) (e : Event) : Finset (Nat × MappingIdentifier × Finset String) :=
  e.build_tags_index.foldl (fun t p => insertTagEntry t p.1 mid p.2) ti

/-- `index_event`: admission check (expired or ephemeral events are not
indexed), surrogate-key allocation, primary-mapping insertion and fan-out to
the four secondary indexes; returns the result together with the updated
engine state. -/
def DatabaseIndexes.index_event (s : DatabaseIndexes) (e : Event) :
    EventIndexResult × DatabaseIndexes :=
  if e.is_expired || e.is_ephemeral then
    ({ to_store := false, to_discard := ∅ }, s)
  else
    let sid := (s.next_sid).1
    let mid : MappingIdentifier := { timestamp := e.created_at, sid := sid }
    ({ to_store := true, to_discard := ∅ },
      { (s.next_sid).2 with
        mapping := fun x => if x = sid then some e.id else s.mapping x
        kinds_index := insert (e.kind, mid) s.kinds_index
        authors_index := insert (e.pubkey, mid) s.authors_index
        created_at_index := insert (e.created_at, mid) s.created_at_index
        tags_index := index_event_tags s.tags_index mid e })

/-- `query_index`: union, over the requested keys, of the index buckets. -/
def query_index (index : Finset (Nat × MappingIdentifier)) (keys : Finset Nat) :
    Finset MappingIdentifier :=
  (index.filter (fun p => p.1 ∈ keys)).image (fun p => p.2)

/-- `intersect_or_extend`: extend the running set when it is empty, intersect
into it otherwise. -/
def intersect_or_extend (main other : Finset MappingIdentifier) : Finset MappingIdentifier :=
  if main = ∅ then other else main ∩ other

/-- `created_at_index.range(since..=until)` flattened into one candidate
set. -/
def createdAtBetween (s : DatabaseIndexes) (a b : Nat) : Finset MappingIdentifier :=
  (s.created_at_index.filter (fun p => a ≤ p.1 ∧ p.1 ≤ b)).image (fun p => p.2)

/-- `created_at_index.range(since..)` flattened into one candidate set. -/
def createdAtSince (s : DatabaseIndexes) (a : Nat) : Finset MappingIdentifier :=
  (s.created_at_index.filter (fun p => a ≤ p.1)).image (fun p => p.2)

/-- `created_at_index.range(..=until)` flattened into one candidate set. -/
def createdAtUntil (s : DatabaseIndexes) (b : Nat) : Finset MappingIdentifier :=
  (s.created_at_index.filter (fun p => p.1 ≤ b)).image (fun p => p.2)

/-- The generic-tag loop of `query`: for each requested letter, every event
recorded in the tag index under that letter whose recorded values contain all
of that letter's required values is added to the accumulator. -/
def tagCandidates (ti : Finset (Nat × MappingIdentifier × Finset String))
    (gts : List (Nat × Finset String)) : Finset MappingIdentifier :=
  gts.foldl
    (fun temp p =>
      temp ∪ (ti.filter (fun q => q.1 = p.1 ∧ p.2 ⊆ q.2.2)).image (fun q => q.2.1))
    ∅

/-- The `since > until` early-return guard of `query`. -/
def sinceGtUntil (f : Filter) : Bool :=
  match f.since, f.until_ with
  | some a, some b => decide (b < a)
  | _, _ => false

/-- The candidate sets of the predicate categories present in the filter, in
source order (kinds, authors, time, tags); a category absent from the filter
contributes nothing. Mirrors the four guarded blocks of `query`. -/
def activeCandidateSets (s : DatabaseIndexes) (f : Filter) : List (Finset MappingIdentifier) :=
  (if f.kinds ≠ ∅ then [query_index s.kinds_index f.kinds] else []) ++
    (if f.authors ≠ ∅ then [query_index s.authors_index f.authors] else []) ++
    (match f.since, f.until_ with
      | some a, some b => [createdAtBetween s a b]
      | some a, none => [createdAtSince s a]
      | none, some b => [createdAtUntil s b]
      | none, none => []) ++
    (if f.generic_tags ≠ [] then [tagCandidates s.tags_index f.generic_tags] else [])

/-- The `matching_sids` accumulation of `query`: each present predicate
category's candidate set is combined into the running set (initially empty)
with `intersect_or_extend`, in source order. -/
def matchingSids (s : DatabaseIndexes) (f : Filter) : Finset MappingIdentifier :=
  (activeCandidateSets s f).foldl intersect_or_extend ∅

/-- `matching_sids.into_iter().take(limit).rev()`: the matching composite keys
in ascending `Ord` order (newest first), truncated to the limit (defaulting to
the set's size), then reversed. -/
def retainedMids (s : DatabaseIndexes) (f : Filter) : List MappingIdentifier :=
  ((sortedMids (matchingSids s f)).take (f.limit.getD (matchingSids s f).card)).reverse

/-- `query`: id-set short-circuit, `since > until` guard, candidate-set
accumulation, limit and reversal, then resolution of each retained composite
key through the primary mapping (keys with no mapping entry are skipped). -/
def DatabaseIndexes.query (s : DatabaseIndexes) (f : Filter) : List EventId :=
  if f.ids ≠ [] then f.ids
  else if sinceGtUntil f then []
  else (retainedMids s f).filterMap (fun mid => s.mapping mid.sid)

/-- `clear`: empties the kind and author indexes; the
`created_at_index.clear()` lines are commented out in the source, and the tag
index, the mapping and the counter are not touched. -/
def DatabaseIndexes.clear (s : DatabaseIndexes) : DatabaseIndexes :=
  { s with kinds_index := ∅, authors_index := ∅ }

/-- Modelled from the spec's words for the combination step: start with the
first active category's candidate set, even when that set is empty, and
intersect each subsequent active category's candidate set into it. Kept
separate from `matchingSids` for refinement comparison. -/
def matchingSidsSpecIntersect (s : DatabaseIndexes) (f : Filter) : Finset MappingIdentifier :=
  match activeCandidateSets s f with
  | [] => ∅
  | x :: xs => xs.foldl (fun m t => m ∩ t) x

/-- Modelled from the spec's words for the tag predicate: an event satisfies
the tag constraint when, for every requested (letter, required-values) pair, it
is recorded in the tag index under that letter with a value set containing all
of that pair's required values. Kept separate from `tagCandidates` for
refinement comparison. -/
def tagMatchesAllSpec (ti : Finset (Nat × MappingIdentifier × Finset String))
    (gts : List (Nat × Finset String)) (mid : MappingIdentifier) : Prop :=
  ∀ p ∈ gts, ∃ q ∈ ti, q.1 = p.1 ∧ q.2.1 = mid ∧ p.2 ⊆ q.2.2

instance (ti : Finset (Nat × MappingIdentifier × Finset String))
    (gts : List (Nat × Finset String)) (mid : MappingIdentifier) :
    Decidable (tagMatchesAllSpec ti gts mid) := by
  unfold tagMatchesAllSpec
  infer_instance

/-- Fixed-width big-endian byte encoding: `toBEBytes w n` is the `w`-byte
big-endian encoding of `n`; the source's `u64::to_be_bytes` is `toBEBytes 8`
on values below 2 ^ 64. -/
def toBEBytes : Nat → Nat → List Nat
  | 0, _ => []
  | w + 1, n => n / 256 ^ w :: toBEBytes w (n % 256 ^ w)

/-- Lexicographic strict order on byte arrays of equal length, as `Ord` on the
source's `SmallerIdentifier([u8; 8])` compares them. -/
def bytesLt : List Nat → List Nat → Prop
  | [], [] => False
  | [], _ :: _ => True
  | _ :: _, [] => False
  | a :: as, b :: bs => a < b ∨ (a = b ∧ bytesLt as bs)

instance instDecidableBytesLt : (l₁ l₂ : List Nat) → Decidable (bytesLt l₁ l₂)
  | [], [] => isFalse fun h => h
  | [], _ :: _ => isTrue trivial
  | _ :: _, [] => isFalse fun h => h
  | a :: as, b :: bs =>
    haveI : Decidable (bytesLt as bs) := instDecidableBytesLt as bs
    decidable_of_iff (a < b ∨ (a = b ∧ bytesLt as bs)) Iff.rfl

/-- Engine state after `n` successive `next_sid` calls starting from a fresh
engine. -/
def stateAfterCalls : Nat → DatabaseIndexes
  | 0 => DatabaseIndexes.new
  | n + 1 => ((stateAfterCalls n).next_sid).2

/-- The surrogate key returned by the `n`-th `next_sid` call (0-based) on a
fresh engine. -/
def sidIssued (n : Nat) : SmallerIdentifier := ((stateAfterCalls n).next_sid).1

/-- All composite keys present anywhere in the four secondary indexes. -/
def allIndexMids (s : DatabaseIndexes) : Finset MappingIdentifier :=
  s.kinds_index.image (fun p => p.2) ∪ s.authors_index.image (fun p => p.2) ∪
    s.created_at_index.image (fun p => p.2) ∪ s.tags_index.image (fun q => q.2.1)

/-- Index/mapping consistency: every composite key recorded in a secondary
index resolves to an event identifier through the primary mapping. -/
def Consistent (s : DatabaseIndexes) : Prop :=
  ∀ mid ∈ allIndexMids s, (s.mapping mid.sid).isSome

/-- Engine states reachable from a fresh engine by any sequence of
`index_event` and `clear` operations (`query` does not mutate the state). -/
inductive Reachable : DatabaseIndexes → Prop
  | init : Reachable DatabaseIndexes.new
  | step_index (s : DatabaseIndexes) (e : Event) : Reachable s → Reachable (s.index_event e).2
  | step_clear (s : DatabaseIndexes) : Reachable s → Reachable s.clear

theorem sortedList_sorted (s : Multiset MappingIdentifier) : (sortedList s).Sorted midLe := by
  induction s using Quot.inductionOn
  exact List.sorted_insertionSort midLe _

theorem mem_sortedList {s : Multiset MappingIdentifier} {a : MappingIdentifier} :
    a ∈ sortedList s ↔ a ∈ s := by
  induction s using Quot.inductionOn
  simp [sortedList]

theorem length_sortedList (s : Multiset MappingIdentifier) :
    (sortedList s).length = Multiset.card s := by
  induction s using Quot.inductionOn
  simp [sortedList]

theorem sortedMids_sorted (m : Finset MappingIdentifier) : (sortedMids m).Sorted midLe :=
  sortedList_sorted m.val

theorem mem_sortedMids {m : Finset MappingIdentifier} {a : MappingIdentifier} :
    a ∈ sortedMids m ↔ a ∈ m :=
  mem_sortedList

theorem length_sortedMids (m : Finset MappingIdentifier) : (sortedMids m).length = m.card :=
  length_sortedList m.val

theorem mem_foldl_union {β : Type*} (step : β → Finset MappingIdentifier) (l : List β)
    (acc : Finset MappingIdentifier) (mid : MappingIdentifier) :
    mid ∈ l.foldl (fun temp p => temp ∪ step p) acc ↔ mid ∈ acc ∨ ∃ p ∈ l, mid ∈ step p := by
  induction l generalizing acc with
  | nil => simp
  | cons x xs ih =>
    simp only [List.foldl_cons, ih, Finset.mem_union, List.mem_cons]
    constructor
    · rintro ((h | h) | ⟨p, hp, h⟩)
      · exact Or.inl h
      · exact Or.inr ⟨x, Or.inl rfl, h⟩
      · exact Or.inr ⟨p, Or.inr hp, h⟩
    · rintro (h | ⟨p, rfl | hp, h⟩)
      · exact Or.inl (Or.inl h)
      · exact Or.inl (Or.inr h)
      · exact Or.inr ⟨p, hp, h⟩

theorem intersect_or_extend_subset (main other A : Finset MappingIdentifier) (h1 : main ⊆ A)
    (h2 : other ⊆ A) : intersect_or_extend main other ⊆ A := by
  unfold intersect_or_extend
  split_ifs
  · exact h2
  · exact fun x hx => h1 (Finset.mem_inter.mp hx).1

theorem foldl_intersect_or_extend_subset (l : List (Finset MappingIdentifier))
    (acc A : Finset MappingIdentifier) (hacc : acc ⊆ A) (hl : ∀ t ∈ l, t ⊆ A) :
    l.foldl intersect_or_extend acc ⊆ A := by
  induction l generalizing acc with
  | nil => exact hacc
  | cons x xs ih =>
    exact ih _ (intersect_or_extend_subset _ _ _ hacc (hl x (by simp)))
      fun t ht => hl t (by simp [ht])

theorem query_index_subset (index : Finset (Nat × MappingIdentifier)) (keys : Finset Nat) :
    query_index index keys ⊆ index.image fun p => p.2 :=
  Finset.image_subset_image (Finset.filter_subset _ _)

theorem tagCandidates_subset (ti : Finset (Nat × MappingIdentifier × Finset String))
    (gts : List (Nat × Finset String)) :
    tagCandidates ti gts ⊆ ti.image fun q => q.2.1 := by
  intro mid h
  rcases (mem_foldl_union _ _ _ _).mp h with h | ⟨p, _, hmid⟩
  · simp at h
  · exact Finset.image_subset_image (Finset.filter_subset _ _) hmid

theorem activeCandidateSets_subset (s : DatabaseIndexes) (f : Filter) :
    ∀ t ∈ activeCandidateSets s f, t ⊆ allIndexMids s := by
  have hk : (s.kinds_index.image fun p => p.2) ⊆ allIndexMids s := by
    intro x hx
    simp only [allIndexMids, Finset.mem_union]
    exact Or.inl (Or.inl (Or.inl hx))
  have ha : (s.authors_index.image fun p => p.2) ⊆ allIndexMids s := by
    intro x hx
    simp only [allIndexMids, Finset.mem_union]
    exact Or.inl (Or.inl (Or.inr hx))
  have hc : (s.created_at_index.image fun p => p.2) ⊆ allIndexMids s := by
    intro x hx
    simp only [allIndexMids, Finset.mem_union]
    exact Or.inl (Or.inr hx)
  have ht : (s.tags_index.image fun q => q.2.1) ⊆ allIndexMids s := by
    intro x hx
    simp only [allIndexMids, Finset.mem_union]
    exact Or.inr hx
  intro t htmem
  simp only [activeCandidateSets, List.mem_append] at htmem
  rcases htmem with ((h | h) | h) | h
  · split_ifs at h <;> simp at h
    subst h
    exact (query_index_subset _ _).trans hk
  · split_ifs at h <;> simp at h
    subst h
    exact (query_index_subset _ _).trans ha
  · rcases hs : f.since with _ | a <;> rcases hu : f.until_ with _ | b <;>
      simp only [hs, hu] at h <;> simp at h <;> subst h <;>
      exact (Finset.image_subset_image (Finset.filter_subset _ _)).trans hc
  · split_ifs at h <;> simp at h
    subst h
    exact (tagCandidates_subset _ _).trans ht

theorem matchingSids_subset (s : DatabaseIndexes) (f : Filter) :
    matchingSids s f ⊆ allIndexMids s :=
  foldl_intersect_or_extend_subset _ _ _ (Finset.empty_subset _)
    (activeCandidateSets_subset s f)

theorem mem_foldl_insertTagEntry (mid : MappingIdentifier) (l : List (Nat × Finset String)) :
    ∀ ti q, q ∈ l.foldl (fun t p => insertTagEntry t p.1 mid p.2) ti → q ∈ ti ∨ q.2.1 = mid := by
  induction l with
  | nil => exact fun ti q h => Or.inl h
  | cons p ps ih =>
    intro ti q h
    rcases ih _ _ h with h' | h'
    · simp only [insertTagEntry, Finset.mem_insert, Finset.mem_filter] at h'
      rcases h' with rfl | ⟨hq, -⟩
      · exact Or.inr rfl
      · exact Or.inl hq
    · exact Or.inr h'

theorem consistent_new : Consistent DatabaseIndexes.new := by
  intro mid h
  simp [allIndexMids, DatabaseIndexes.new] at h

/-- Evaluation of `index_event` on an expired or ephemeral event: the default
result is returned and the state is untouched. -/
theorem index_event_of_flagged (s : DatabaseIndexes) (e : Event)
    (hc : (e.is_expired || e.is_ephemeral) = true) :
    s.index_event e = ({ to_store := false, to_discard := ∅ }, s) := by
  simp [DatabaseIndexes.index_event, hc]

/-- Evaluation of `index_event` on an admitted event: the counter advances, the
new surrogate key is mapped to the event identifier and the composite key is
inserted into all four secondary indexes. -/
theorem index_event_of_admitted (s : DatabaseIndexes) (e : Event)
    (hc : (e.is_expired || e.is_ephemeral) = false) :
    s.index_event e =
      ({ to_store := true, to_discard := ∅ },
        { counter := (s.counter + 1) % u64Mod
          mapping := fun x => if x = s.counter then some e.id else s.mapping x
          kinds_index := insert (e.kind, ⟨e.created_at, s.counter⟩) s.kinds_index
          authors_index := insert (e.pubkey, ⟨e.created_at, s.counter⟩) s.authors_index
          created_at_index := insert (e.created_at, ⟨e.created_at, s.counter⟩) s.created_at_index
          tags_index := index_event_tags s.tags_index ⟨e.created_at, s.counter⟩ e }) := by
  simp [DatabaseIndexes.index_event, DatabaseIndexes.next_sid, hc]

theorem consistent_index_event (s : DatabaseIndexes) (e : Event) (h : Consistent s) :
    Consistent (s.index_event e).2 := by
  rcases Bool.eq_false_or_eq_true (e.is_expired || e.is_ephemeral) with hc | hc
  · rw [index_event_of_flagged s e hc]
    exact h
  · rw [index_event_of_admitted s e hc]
    intro mid hmid
    show (if mid.sid = s.counter then some e.id else s.mapping mid.sid).isSome = true
    by_cases hsid : mid.sid = s.counter
    · rw [if_pos hsid]
      rfl
    · rw [if_neg hsid]
      apply h
      simp only [allIndexMids, Finset.mem_union, Finset.mem_image] at hmid ⊢
      have hne : mid ≠ (⟨e.created_at, s.counter⟩ : MappingIdentifier) := by
        intro hEq
        exact hsid (by rw [hEq])
      rcases hmid with ((⟨p, hp, hp2⟩ | ⟨p, hp, hp2⟩) | ⟨p, hp, hp2⟩) | ⟨q, hq, hq2⟩
      · rcases Finset.mem_insert.mp hp with rfl | hp'
        · exact absurd hp2.symm (by simpa using hne)
        · exact Or.inl (Or.inl (Or.inl ⟨p, hp', hp2⟩))
      · rcases Finset.mem_insert.mp hp with rfl | hp'
        · exact absurd hp2.symm (by simpa using hne)
        · exact Or.inl (Or.inl (Or.inr ⟨p, hp', hp2⟩))
      · rcases Finset.mem_insert.mp hp with rfl | hp'
        · exact absurd hp2.symm (by simpa using hne)
        · exact Or.inl (Or.inr ⟨p, hp', hp2⟩)
      · rcases mem_foldl_insertTagEntry _ _ _ _ hq with hq' | hq'
        · exact Or.inr ⟨q, hq', hq2⟩
        · rw [hq'] at hq2
          exact absurd hq2.symm hne

theorem consistent_clear (s : DatabaseIndexes) (h : Consistent s) : Consistent s.clear := by
  intro mid hmid
  apply h
  simp only [DatabaseIndexes.clear, allIndexMids, Finset.mem_union, Finset.image_empty,
    Finset.not_mem_empty] at hmid ⊢
  tauto

theorem reachable_consistent (s : DatabaseIndexes) (h : Reachable s) : Consistent s := by
  induction h with
  | init => exact consistent_new
  | step_index s e _ ih => exact consistent_index_event s e ih
  | step_clear s _ ih => exact consistent_clear s ih

theorem counter_stateAfterCalls (n : Nat) : (stateAfterCalls n).counter = n % u64Mod := by
  have hmod : u64Mod = 18446744073709551616 := by norm_num [u64Mod]
  induction n with
  | zero =>
    show (0 : Nat) = 0 % u64Mod
    rw [hmod]
  | succ n ih =>
    show ((stateAfterCalls n).counter + 1) % u64Mod = (n + 1) % u64Mod
    rw [ih, hmod]
    omega

theorem sidIssued_eq (n : Nat) : sidIssued n = n % u64Mod :=
  counter_stateAfterCalls n

theorem lt_iff_div_lt_or_mod_lt (d a b : Nat) (hd : 0 < d) :
    a < b ↔ a / d < b / d ∨ (a / d = b / d ∧ a % d < b % d) := by
  constructor
  · intro hab
    rcases Nat.lt_or_ge (a / d) (b / d) with h | h
    · exact Or.inl h
    · have h4 : a / d = b / d :=
        Nat.le_antisymm (Nat.div_le_div_right (Nat.le_of_lt hab)) h
      refine Or.inr ⟨h4, ?_⟩
      have ha := Nat.div_add_mod a d
      have hb := Nat.div_add_mod b d
      rw [h4] at ha
      have hlt : d * (b / d) + a % d < d * (b / d) + b % d := by
        rw [ha, hb]
        exact hab
      exact Nat.lt_of_add_lt_add_left hlt
  · rintro (h | ⟨h1, h2⟩)
    · have hstep : a < d * (a / d) + d := by
        conv_lhs => rw [← Nat.div_add_mod a d]
        exact Nat.add_lt_add_left (Nat.mod_lt a hd) _
      calc a < d * (a / d) + d := hstep
        _ = d * (a / d + 1) := by ring
        _ ≤ d * (b / d) := mul_le_mul_left' (Nat.succ_le_of_lt h) d
        _ ≤ b := by
            conv_rhs => rw [← Nat.div_add_mod b d]
            exact Nat.le_add_right _ _
    · have ha := Nat.div_add_mod a d
      have hb := Nat.div_add_mod b d
      rw [h1] at ha
      calc a = d * (b / d) + a % d := ha.symm
        _ < d * (b / d) + b % d := Nat.add_lt_add_left h2 _
        _ = b := hb

theorem length_toBEBytes (w n : Nat) : (toBEBytes w n).length = w := by
  induction w generalizing n with
  | zero => rfl
  | succ w ih => simp [toBEBytes, ih]

theorem bytesLt_toBEBytes_iff (w : Nat) :
    ∀ a b : Nat, a < 256 ^ w → b < 256 ^ w →
      (bytesLt (toBEBytes w a) (toBEBytes w b) ↔ a < b) := by
  induction w with
  | zero =>
    intro a b ha hb
    rw [pow_zero, Nat.lt_one_iff] at ha hb
    subst ha
    subst hb
    simp [toBEBytes, bytesLt]
  | succ w ih =>
    intro a b _ _
    have hpow : 0 < 256 ^ w := pow_pos (by norm_num) w
    simp only [toBEBytes, bytesLt]
    rw [ih _ _ (Nat.mod_lt _ hpow) (Nat.mod_lt _ hpow)]
    exact (lt_iff_div_lt_or_mod_lt (256 ^ w) a b hpow).symm

theorem bytesLt_irrefl (l : List Nat) : ¬bytesLt l l := by
  induction l with
  | nil => exact fun h => h
  | cons x xs ih =>
    intro h
    rcases h with h | ⟨-, h2⟩
    · exact absurd h (lt_irrefl x)
    · exact ih h2

theorem length_filterMap_of_isSome {α β : Type*} (g : α → Option β) :
    ∀ l : List α, (∀ a ∈ l, (g a).isSome) → (l.filterMap g).length = l.length := by
  intro l
  induction l with
  | nil => intro _; rfl
  | cons x xs ih =>
    intro h
    have hx := h x (List.mem_cons_self x xs)
    rcases hgx : g x with _ | y
    · rw [hgx] at hx
      simp at hx
    · simp [List.filterMap_cons, hgx, ih fun a ha => h a (List.mem_cons_of_mem _ ha)]

theorem filterMap_eq_replicate {α β : Type*} (g : α → Option β) (c : β) :
    ∀ l : List α, (∀ a ∈ l, g a = some c) → l.filterMap g = List.replicate l.length c := by
  intro l
  induction l with
  | nil => intro _; rfl
  | cons x xs ih =>
    intro h
    have hx := h x (List.mem_cons_self x xs)
    simp [List.filterMap_cons, hx, List.replicate_succ,
      ih fun a ha => h a (List.mem_cons_of_mem _ ha)]

/-- C6: for every filter with a non-empty id-set, `query` returns exactly that
id-set, regardless of the engine state: no secondary index is consulted and no
existence check is made against the primary mapping. -/
theorem c6_id_set_short_circuit (s : DatabaseIndexes) (f : Filter) (h : f.ids ≠ []) :
    s.query f = f.ids := by
  unfold DatabaseIndexes.query
  rw [if_pos h]

/-- Witness for C6: a fresh engine and a filter whose id-set holds two never
indexed identifiers still returns exactly that id-set. -/
theorem c6_id_set_short_circuit_witness :
    ([5, 9] : List EventId) ≠ [] ∧
      DatabaseIndexes.new.query
          { ids := [5, 9], kinds := ∅, authors := ∅, since := none, until_ := none,
            generic_tags := [], limit := none } = [5, 9] :=
  ⟨by decide,
    c6_id_set_short_circuit DatabaseIndexes.new
      { ids := [5, 9], kinds := ∅, authors := ∅, since := none, until_ := none,
        generic_tags := [], limit := none } (by decide)⟩

/-- C8: `clear` removes all entries from the kind and author indexes and
leaves the created-at index, the tag index, the primary mapping and the
surrogate-key counter unchanged. -/
theorem c8_clear_partial (s : DatabaseIndexes) :
    s.clear.kinds_index = ∅ ∧ s.clear.authors_index = ∅ ∧
      s.clear.created_at_index = s.created_at_index ∧ s.clear.tags_index = s.tags_index ∧
      s.clear.mapping = s.mapping ∧ s.clear.counter = s.counter :=
  ⟨rfl, rfl, rfl, rfl, rfl, rfl⟩

/-- C4: an event whose expired flag or ephemeral flag is true is not admitted:
`index_event` returns `to_store = false` with an empty discard set, leaves the
whole engine state (mapping, all four indexes, counter) unchanged, and
consequently every subsequent query answers exactly as if the call had never
happened. -/
theorem c4_admission_exclusion (s : DatabaseIndexes) (e : Event)
    (h : e.expired = true ∨ e.ephemeral = true) :
    (s.index_event e).1 = { to_store := false, to_discard := ∅ } ∧
      (s.index_event e).2 = s ∧
      ∀ f : Filter, ((s.index_event e).2).query f = s.query f := by
  have hc : (e.is_expired || e.is_ephemeral) = true := by
    rcases h with h | h <;> simp [Event.is_expired, Event.is_ephemeral, h]
  rw [index_event_of_flagged s e hc]
  exact ⟨rfl, rfl, fun _ => rfl⟩

/-- Witness for C4: indexing a concrete expired event on a fresh engine. -/
theorem c4_admission_exclusion_witness :
    ((true : Bool) = true ∨ (false : Bool) = true) ∧
      ((DatabaseIndexes.new.index_event ⟨1, 2, 3, 4, [], true, false⟩).1 =
          { to_store := false, to_discard := ∅ } ∧
        (DatabaseIndexes.new.index_event ⟨1, 2, 3, 4, [], true, false⟩).2 =
          DatabaseIndexes.new ∧
        ∀ f : Filter,
          ((DatabaseIndexes.new.index_event ⟨1, 2, 3, 4, [], true, false⟩).2).query f =
            DatabaseIndexes.new.query f) :=
  ⟨Or.inl rfl, c4_admission_exclusion DatabaseIndexes.new ⟨1, 2, 3, 4, [], true, false⟩
    (Or.inl rfl)⟩

/-- C5 counterexample: a filter with the non-empty id-set [7], `since = 5` and
`until = 3` does not return the empty sequence, because the id short-circuit
runs before the `since > until` guard; the claim predicts the empty sequence
for every filter with `since > until`. -/
theorem c5_counterexample_ids_override_guard :
    DatabaseIndexes.new.query
        { ids := [7], kinds := ∅, authors := ∅, since := some 5, until_ := some 3,
          generic_tags := [], limit := none } ≠ [] := by
  decide

/-- C5 (amended, restricted to filters with an empty id-set): `since > until`
yields the empty sequence with no error, and otherwise the time predicate's
candidate set holds exactly the composite keys recorded in the created-at
index under a timestamp in the closed range from `since` to `until` (so
`since = until = T` keeps exactly the keys recorded at `T`). -/
theorem c5_time_range (s : DatabaseIndexes) (f : Filter) (a b : Nat) (hids : f.ids = [])
    (hs : f.since = some a) (hu : f.until_ = some b) :
    (b < a → s.query f = []) ∧
      (∀ mid, mid ∈ createdAtBetween s a b ↔
        ∃ t, (t, mid) ∈ s.created_at_index ∧ a ≤ t ∧ t ≤ b) := by
  constructor
  · intro hba
    have hg : sinceGtUntil f = true := by
      simp [sinceGtUntil, hs, hu, hba]
    unfold DatabaseIndexes.query
    rw [if_neg (by simp [hids]), if_pos hg]
  · intro mid
    constructor
    · intro hmem
      rcases Finset.mem_image.mp hmem with ⟨p, hp, rfl⟩
      rw [Finset.mem_filter] at hp
      exact ⟨p.1, by simpa using hp.1, hp.2.1, hp.2.2⟩
    · rintro ⟨t, ht, h1, h2⟩
      rw [createdAtBetween, Finset.mem_image]
      exact ⟨(t, mid), Finset.mem_filter.mpr ⟨ht, h1, h2⟩, rfl⟩

/-- Witness for C5 at a state holding one event with timestamp 3 and the
filter `since = until = 3`. -/
theorem c5_time_range_witness :
    (([] : List EventId) = []) ∧
      ((3 < 3 →
          (DatabaseIndexes.new.index_event ⟨77, 1, 1, 3, [], false, false⟩).2.query
              { ids := [], kinds := ∅, authors := ∅, since := some 3, until_ := some 3,
                generic_tags := [], limit := none } = []) ∧
        ∀ mid,
          mid ∈
              createdAtBetween (DatabaseIndexes.new.index_event ⟨77, 1, 1, 3, [], false, false⟩).2
                3 3 ↔
            ∃ t,
              (t, mid) ∈
                  (DatabaseIndexes.new.index_event
                      ⟨77, 1, 1, 3, [], false, false⟩).2.created_at_index ∧
                3 ≤ t ∧ t ≤ 3) :=
  ⟨rfl,
    c5_time_range (DatabaseIndexes.new.index_event ⟨77, 1, 1, 3, [], false, false⟩).2
      { ids := [], kinds := ∅, authors := ∅, since := some 3, until_ := some 3,
        generic_tags := [], limit := none } 3 3 rfl rfl rfl⟩

/-- C2 counterexample: with one indexed event of kind 1 by author 10, a filter
requesting kinds {2} and authors {10} has an empty first active candidate set,
yet the combined candidate set is not the claimed progressive intersection
(which starts from that empty set and stays empty): the empty running set is
extended instead of intersected, and the query returns the event. -/
theorem c2_counterexample_empty_extends :
    matchingSids (DatabaseIndexes.new.index_event ⟨77, 10, 1, 100, [], false, false⟩).2
        { ids := [], kinds := {2}, authors := {10}, since := none, until_ := none,
          generic_tags := [], limit := none } ≠
      matchingSidsSpecIntersect
        (DatabaseIndexes.new.index_event ⟨77, 10, 1, 100, [], false, false⟩).2
        { ids := [], kinds := {2}, authors := {10}, since := none, until_ := none,
          generic_tags := [], limit := none } ∧
      (DatabaseIndexes.new.index_event ⟨77, 10, 1, 100, [], false, false⟩).2.query
          { ids := [], kinds := {2}, authors := {10}, since := none, until_ := none,
            generic_tags := [], limit := none } = [77] := by
  decide

/-- C2 (amended): a subsequent active category's candidate set is intersected
into the running set only when the running set is non-empty (an empty running
set is replaced by the new category's set instead). In particular, when kinds
and authors are the only active predicate categories and the requested kinds'
candidate set is non-empty, the combined candidate set is exactly the kind
candidates intersected with the author candidates, so an event matching a
requested kind but authored by someone outside the requested author-set is
excluded. -/
theorem c2_conjunctive_narrowing (s : DatabaseIndexes) (f : Filter) (hk : f.kinds ≠ ∅)
    (ha : f.authors ≠ ∅) (hs : f.since = none) (hu : f.until_ = none)
    (hg : f.generic_tags = []) (hne : query_index s.kinds_index f.kinds ≠ ∅) :
    matchingSids s f =
      query_index s.kinds_index f.kinds ∩ query_index s.authors_index f.authors := by
  have hsets : activeCandidateSets s f =
      [query_index s.kinds_index f.kinds, query_index s.authors_index f.authors] := by
    unfold activeCandidateSets
    rw [hs, hu, if_pos hk, if_pos ha]
    simp [hg]
  have hinner : intersect_or_extend ∅ (query_index s.kinds_index f.kinds) =
      query_index s.kinds_index f.kinds := by
    rw [intersect_or_extend, if_pos rfl]
  unfold matchingSids
  rw [hsets]
  simp only [List.foldl_cons, List.foldl_nil]
  rw [hinner, intersect_or_extend, if_neg hne]

/-- Witness for C2 at a state with an event of kind 1 by author 10 and one of
kind 1 by author 11, queried with kinds {1} and authors {10}. -/
theorem c2_conjunctive_narrowing_witness :
    ({1} : Finset Nat) ≠ ∅ ∧ ({10} : Finset Nat) ≠ ∅ ∧
      query_index
          ((DatabaseIndexes.new.index_event ⟨77, 10, 1, 100, [], false,
                false⟩).2.index_event ⟨88, 11, 1, 200, [], false, false⟩).2.kinds_index
          {1} ≠ ∅ ∧
      matchingSids
          ((DatabaseIndexes.new.index_event ⟨77, 10, 1, 100, [], false,
                false⟩).2.index_event ⟨88, 11, 1, 200, [], false, false⟩).2
          { ids := [], kinds := {1}, authors := {10}, since := none, until_ := none,
            generic_tags := [], limit := none } =
        query_index
            ((DatabaseIndexes.new.index_event ⟨77, 10, 1, 100, [], false,
                  false⟩).2.index_event ⟨88, 11, 1, 200, [], false, false⟩).2.kinds_index
            {1} ∩
          query_index
            ((DatabaseIndexes.new.index_event ⟨77, 10, 1, 100, [], false,
                  false⟩).2.index_event ⟨88, 11, 1, 200, [], false, false⟩).2.authors_index
            {10} :=
  ⟨by decide, by decide, by decide,
    c2_conjunctive_narrowing
      ((DatabaseIndexes.new.index_event ⟨77, 10, 1, 100, [], false,
            false⟩).2.index_event ⟨88, 11, 1, 200, [], false, false⟩).2
      { ids := [], kinds := {1}, authors := {10}, since := none, until_ := none,
        generic_tags := [], limit := none } (by decide) (by decide) rfl rfl rfl (by decide)⟩

/-- C1 counterexample: one indexed event carrying only the tag letter 5 with
value x, queried with the two tag constraints (5, {x}) and (6, {y}): the event
is included in the tag predicate's candidate set although it does not satisfy
the (6, {y}) constraint, so inclusion does not require satisfying ALL
requested letters; the whole query returns the event although the claim
predicts its exclusion. -/
theorem c1_counterexample_single_letter_match :
    (⟨100, 0⟩ : MappingIdentifier) ∈
        tagCandidates
          (DatabaseIndexes.new.index_event
              ⟨88, 10, 1, 100, [(5, {"x"})], false, false⟩).2.tags_index
          [(5, {"x"}), (6, {"y"})] ∧
      ¬tagMatchesAllSpec
          (DatabaseIndexes.new.index_event
              ⟨88, 10, 1, 100, [(5, {"x"})], false, false⟩).2.tags_index
          [(5, {"x"}), (6, {"y"})] ⟨100, 0⟩ ∧
      (DatabaseIndexes.new.index_event ⟨88, 10, 1, 100, [(5, {"x"})], false, false⟩).2.query
          { ids := [], kinds := ∅, authors := ∅, since := none, until_ := none,
            generic_tags := [(5, {"x"}), (6, {"y"})], limit := none } = [88] := by
  refine ⟨by decide, by decide, by decide⟩

/-- C1 (amended): membership in the tag predicate's candidate set is decided
per letter and disjunctively across the requested letters: an event is
included iff for SOME requested (letter, required-values) pair it is recorded
in the tag index under that letter with a value set containing all of that
pair's required values. (Within a single letter, all of that letter's required
values must indeed be present.) -/
theorem c1_tag_candidates_mem (ti : Finset (Nat × MappingIdentifier × Finset String))
    (gts : List (Nat × Finset String)) (mid : MappingIdentifier) :
    mid ∈ tagCandidates ti gts ↔
      ∃ p ∈ gts, ∃ q ∈ ti, q.1 = p.1 ∧ q.2.1 = mid ∧ p.2 ⊆ q.2.2 := by
  unfold tagCandidates
  rw [mem_foldl_union]
  simp only [Finset.not_mem_empty, false_or, Finset.mem_image, Finset.mem_filter]
  constructor
  · rintro ⟨p, hp, q, ⟨hq, h1, h2⟩, rfl⟩
    exact ⟨p, hp, q, hq, h1, rfl, h2⟩
  · rintro ⟨p, hp, q, hq, h1, rfl, h2⟩
    exact ⟨p, hp, q, ⟨hq, h1, h2⟩, rfl⟩

/-- C3: for every query without an id-set (and with the `since > until` guard
not firing), the answer is the resolution of the retained window: every
retained composite key is a match, the window holds `min limit matches` keys
(all matches when no limit is given), it is ordered oldest-to-newest
(timestamp ascending, surrogate key descending as tiebreak, i.e. the reverse
of composite-key order), every match outside the window sorts at-or-after
every retained key in newest-first composite-key order — so the window is
exactly the `limit` newest matches — and the returned sequence resolves that
reversed window through the primary mapping. -/
theorem c3_limit_and_ordering (s : DatabaseIndexes) (f : Filter) (hids : f.ids = [])
    (hguard : sinceGtUntil f = false) :
    s.query f = (retainedMids s f).filterMap (fun mid => s.mapping mid.sid) ∧
      (∀ mid ∈ retainedMids s f, mid ∈ matchingSids s f) ∧
      (retainedMids s f).length =
        min (f.limit.getD (matchingSids s f).card) (matchingSids s f).card ∧
      (retainedMids s f).Sorted (fun a b => midLe b a) ∧
      (∀ a ∈ retainedMids s f, ∀ b ∈ matchingSids s f, b ∉ retainedMids s f → midLe a b) := by
  refine ⟨?_, ?_, ?_, ?_, ?_⟩
  · unfold DatabaseIndexes.query
    rw [if_neg (by simp [hids]), if_neg (by simp [hguard])]
  · intro mid hmid
    unfold retainedMids at hmid
    exact mem_sortedMids.mp (List.take_subset _ _ (List.mem_reverse.mp hmid))
  · unfold retainedMids
    rw [List.length_reverse, List.length_take, length_sortedMids]
  · unfold retainedMids
    show List.Pairwise _ _
    rw [List.pairwise_reverse]
    exact List.Pairwise.sublist (List.take_sublist _ _) (sortedMids_sorted (matchingSids s f))
  · intro a hA b hB hnB
    unfold retainedMids at hA hnB
    rw [List.mem_reverse] at hA hnB
    have hb1 : b ∈ sortedMids (matchingSids s f) := mem_sortedMids.mpr hB
    have hsplit := List.take_append_drop (f.limit.getD (matchingSids s f).card)
      (sortedMids (matchingSids s f))
    have hsorted : (sortedMids (matchingSids s f)).Pairwise midLe :=
      sortedMids_sorted (matchingSids s f)
    rw [← hsplit] at hsorted hb1
    have hdrop : b ∈ (sortedMids (matchingSids s f)).drop
        (f.limit.getD (matchingSids s f).card) := by
      rcases List.mem_append.mp hb1 with h | h
      · exact absurd h hnB
      · exact h
    exact (List.pairwise_append.mp hsorted).2.2 a hA b hdrop

/-- Test fixture: four admitted events with timestamps 100, 200, 300, 400 (the
event identifier repeats the timestamp), all of kind 1. -/
def exampleState4 : DatabaseIndexes :=
  ((((DatabaseIndexes.new.index_event ⟨100, 1, 1, 100, [], false, false⟩).2.index_event
          ⟨200, 1, 1, 200, [], false, false⟩).2.index_event
        ⟨300, 1, 1, 300, [], false, false⟩).2.index_event
      ⟨400, 1, 1, 400, [], false, false⟩).2

/-- Test fixture: the filter requesting kind 1 with limit 2. -/
def exampleFilter2 : Filter :=
  { ids := [], kinds := {1}, authors := ∅, since := none, until_ := none, generic_tags := [],
    limit := some 2 }

/-- Witness for C3 at the four-event fixture with limit 2; the extra last
conjunct evaluates the example of the claim: the answer is exactly the two
newest events, oldest first. -/
theorem c3_limit_and_ordering_witness :
    exampleFilter2.ids = [] ∧ sinceGtUntil exampleFilter2 = false ∧
      (exampleState4.query exampleFilter2 =
          (retainedMids exampleState4 exampleFilter2).filterMap
            (fun mid => exampleState4.mapping mid.sid) ∧
        (∀ mid ∈ retainedMids exampleState4 exampleFilter2,
          mid ∈ matchingSids exampleState4 exampleFilter2) ∧
        (retainedMids exampleState4 exampleFilter2).length =
          min (exampleFilter2.limit.getD (matchingSids exampleState4 exampleFilter2).card)
            (matchingSids exampleState4 exampleFilter2).card ∧
        (retainedMids exampleState4 exampleFilter2).Sorted (fun a b => midLe b a) ∧
        (∀ a ∈ retainedMids exampleState4 exampleFilter2,
          ∀ b ∈ matchingSids exampleState4 exampleFilter2,
            b ∉ retainedMids exampleState4 exampleFilter2 → midLe a b)) ∧
      exampleState4.query exampleFilter2 = [300, 400] :=
  ⟨rfl, rfl, c3_limit_and_ordering exampleState4 exampleFilter2 rfl rfl, by decide⟩

/-- C7 counterexample: the `AtomicU64` counter wraps at 2 ^ 64, so the
surrogate key returned by call number 2 ^ 64 (0-based) equals the very first
returned key instead of strictly exceeding every previously returned key, and
its byte encoding is accordingly not lexicographically greater either. -/
theorem c7_counterexample_wraparound :
    sidIssued (2 ^ 64) = sidIssued 0 ∧
      ¬bytesLt (toBEBytes 8 (sidIssued 0)) (toBEBytes 8 (sidIssued (2 ^ 64))) := by
  have h0 : sidIssued 0 = 0 := by
    rw [sidIssued_eq]
    norm_num
  have h1 : sidIssued (2 ^ 64) = 0 := by
    rw [sidIssued_eq]
    norm_num [u64Mod]
  refine ⟨by rw [h0, h1], ?_⟩
  rw [h0, h1]
  exact bytesLt_irrefl _

/-- C7 (amended: restricted to the first 2 ^ 64 issued keys, before the
counter can wrap): every surrogate key is strictly greater than every
previously issued key; each returned key is the counter value read by the
post-increment, its encoding is the fixed-width 8-byte big-endian byte
sequence, and lexicographic comparison of the byte encodings of any two issued
keys agrees with their numeric issuance order. -/
theorem c7_surrogate_monotonic (i j : Nat) (hij : i < j) (hj : j < 2 ^ 64) :
    sidIssued i < sidIssued j ∧
      sidIssued j = (stateAfterCalls j).counter ∧
      (toBEBytes 8 (sidIssued j)).length = 8 ∧
      bytesLt (toBEBytes 8 (sidIssued i)) (toBEBytes 8 (sidIssued j)) := by
  have hmod : u64Mod = 2 ^ 64 := rfl
  have hi : sidIssued i = i := by
    rw [sidIssued_eq, hmod, Nat.mod_eq_of_lt (lt_trans hij hj)]
  have hjv : sidIssued j = j := by
    rw [sidIssued_eq, hmod, Nat.mod_eq_of_lt hj]
  have h256 : (256 : Nat) ^ 8 = 2 ^ 64 := by norm_num
  refine ⟨?_, rfl, length_toBEBytes 8 _, ?_⟩
  · rw [hi, hjv]
    exact hij
  · rw [hi, hjv]
    exact (bytesLt_toBEBytes_iff 8 i j (by rw [h256]; exact lt_trans hij hj)
      (by rw [h256]; exact hj)).mpr hij

/-- Witness for C7 at the first two issued keys. -/
theorem c7_surrogate_monotonic_witness :
    0 < 1 ∧ 1 < 2 ^ 64 ∧
      (sidIssued 0 < sidIssued 1 ∧
        sidIssued 1 = (stateAfterCalls 1).counter ∧
        (toBEBytes 8 (sidIssued 1)).length = 8 ∧
        bytesLt (toBEBytes 8 (sidIssued 0)) (toBEBytes 8 (sidIssued 1))) :=
  ⟨by decide, by norm_num, c7_surrogate_monotonic 0 1 (by decide) (by norm_num)⟩

/-- C9: in every state reachable from a fresh engine by `index_event` and
`clear` operations, every composite ordering key present in any secondary
index has its surrogate key mapped in the primary mapping; consequently the
missing-mapping skip branch of `query` is unreachable there: for every filter,
the resolution step drops no retained key (one identifier per retained
composite key). -/
theorem c9_index_mapping_consistency (s : DatabaseIndexes) (h : Reachable s) :
    (∀ mid ∈ allIndexMids s, (s.mapping mid.sid).isSome) ∧
      ∀ f : Filter,
        ((retainedMids s f).filterMap fun mid => s.mapping mid.sid).length =
          (retainedMids s f).length := by
  have hcons : Consistent s := reachable_consistent s h
  refine ⟨hcons, fun f => ?_⟩
  apply length_filterMap_of_isSome
  intro mid hmid
  apply hcons
  apply matchingSids_subset s f
  unfold retainedMids at hmid
  exact mem_sortedMids.mp (List.take_subset _ _ (List.mem_reverse.mp hmid))

/-- Witness for C9 at a concrete reachable state: a fresh engine, one admitted
event, then a `clear`. -/
theorem c9_index_mapping_consistency_witness :
    Reachable ((DatabaseIndexes.new.index_event ⟨42, 7, 1, 50, [], false, false⟩).2.clear) ∧
      ((∀ mid ∈
          allIndexMids ((DatabaseIndexes.new.index_event
              ⟨42, 7, 1, 50, [], false, false⟩).2.clear),
          (((DatabaseIndexes.new.index_event
              ⟨42, 7, 1, 50, [], false, false⟩).2.clear).mapping mid.sid).isSome) ∧
        ∀ f : Filter,
          ((retainedMids ((DatabaseIndexes.new.index_event
                  ⟨42, 7, 1, 50, [], false, false⟩).2.clear) f).filterMap fun mid =>
              ((DatabaseIndexes.new.index_event
                  ⟨42, 7, 1, 50, [], false, false⟩).2.clear).mapping mid.sid).length =
            (retainedMids ((DatabaseIndexes.new.index_event
                ⟨42, 7, 1, 50, [], false, false⟩).2.clear) f).length) :=
  ⟨Reachable.step_clear _ (Reachable.step_index _ _ Reachable.init),
    c9_index_mapping_consistency _
      (Reachable.step_clear _ (Reachable.step_index _ _ Reachable.init))⟩

theorem query_no_guard (s : DatabaseIndexes) (f : Filter) (hids : f.ids = [])
    (hguard : sinceGtUntil f = false) :
    s.query f = (retainedMids s f).filterMap fun mid => s.mapping mid.sid := by
  unfold DatabaseIndexes.query
  rw [if_neg (by simp [hids]), if_neg (by simp [hguard])]

theorem matchingSids_kind_only (s : DatabaseIndexes) (k : Nat) :
    matchingSids s
        { ids := [], kinds := {k}, authors := ∅, since := none, until_ := none,
          generic_tags := [], limit := none } = query_index s.kinds_index {k} := by
  unfold matchingSids activeCandidateSets
  simp [intersect_or_extend, Finset.singleton_ne_empty]

/-- C10: `index_event` performs no duplicate detection: indexing the same
non-expired, non-ephemeral event twice on a fresh engine admits it both times,
allocates the two distinct surrogate keys 0 and 1, creates two primary-mapping
entries holding the same event identifier, and a subsequent query for the
event's kind, without an id-set and without a limit, returns the event
identifier twice. -/
theorem c10_no_duplicate_detection (e : Event) (s1 s2 : DatabaseIndexes)
    (he1 : e.expired = false) (he2 : e.ephemeral = false)
    (h1 : s1 = (DatabaseIndexes.new.index_event e).2) (h2 : s2 = (s1.index_event e).2) :
    (DatabaseIndexes.new.index_event e).1.to_store = true ∧
      (s1.index_event e).1.to_store = true ∧
      s2.mapping 0 = some e.id ∧ s2.mapping 1 = some e.id ∧
      s2.query
          { ids := [], kinds := {e.kind}, authors := ∅, since := none, until_ := none,
            generic_tags := [], limit := none } = [e.id, e.id] := by
  have hc : (e.is_expired || e.is_ephemeral) = false := by
    simp [Event.is_expired, Event.is_ephemeral, he1, he2]
  have hs1c : s1.counter = 1 := by
    rw [h1, index_event_of_admitted _ _ hc]
    norm_num [DatabaseIndexes.new, u64Mod]
  have hs1m0 : s1.mapping 0 = some e.id := by
    rw [h1, index_event_of_admitted _ _ hc]
    simp [DatabaseIndexes.new]
  have hs1k : s1.kinds_index = insert (e.kind, (⟨e.created_at, 0⟩ : MappingIdentifier)) ∅ := by
    rw [h1, index_event_of_admitted _ _ hc]
    simp [DatabaseIndexes.new]
  have hs2m0 : s2.mapping 0 = some e.id := by
    rw [h2, index_event_of_admitted _ _ hc]
    simp [hs1c, hs1m0]
  have hs2m1 : s2.mapping 1 = some e.id := by
    rw [h2, index_event_of_admitted _ _ hc]
    simp [hs1c]
  have hs2k : s2.kinds_index =
      insert (e.kind, (⟨e.created_at, 1⟩ : MappingIdentifier))
        (insert (e.kind, (⟨e.created_at, 0⟩ : MappingIdentifier)) ∅) := by
    rw [h2, index_event_of_admitted _ _ hc]
    show insert (e.kind, (⟨e.created_at, s1.counter⟩ : MappingIdentifier)) s1.kinds_index = _
    rw [hs1c, hs1k]
  have hmatch : matchingSids s2
      { ids := [], kinds := {e.kind}, authors := ∅, since := none, until_ := none,
        generic_tags := [], limit := none } =
      {(⟨e.created_at, 1⟩ : MappingIdentifier), (⟨e.created_at, 0⟩ : MappingIdentifier)} := by
    rw [matchingSids_kind_only s2 e.kind, hs2k]
    simp [query_index, Finset.filter_insert, Finset.filter_singleton, Finset.image_insert]
  have hcard : (matchingSids s2
      { ids := [], kinds := {e.kind}, authors := ∅, since := none, until_ := none,
        generic_tags := [], limit := none }).card = 2 := by
    rw [hmatch, Finset.card_insert_of_not_mem (by simp), Finset.card_singleton]
  have hretlen : (retainedMids s2
      { ids := [], kinds := {e.kind}, authors := ∅, since := none, until_ := none,
        generic_tags := [], limit := none }).length = 2 := by
    unfold retainedMids
    rw [List.length_reverse, List.length_take, length_sortedMids, hcard]
    rfl
  have hmem : ∀ mid ∈ retainedMids s2
      { ids := [], kinds := {e.kind}, authors := ∅, since := none, until_ := none,
        generic_tags := [], limit := none }, s2.mapping mid.sid = some e.id := by
    intro mid hmid
    have hm : mid ∈ matchingSids s2
        { ids := [], kinds := {e.kind}, authors := ∅, since := none, until_ := none,
          generic_tags := [], limit := none } := by
      unfold retainedMids at hmid
      exact mem_sortedMids.mp (List.take_subset _ _ (List.mem_reverse.mp hmid))
    rw [hmatch] at hm
    rcases Finset.mem_insert.mp hm with rfl | hm'
    · exact hs2m1
    · rw [Finset.mem_singleton] at hm'
      subst hm'
      exact hs2m0
  refine ⟨?_, ?_, hs2m0, hs2m1, ?_⟩
  · rw [index_event_of_admitted _ _ hc]
  · rw [index_event_of_admitted _ _ hc]
  · rw [query_no_guard s2
        { ids := [], kinds := {e.kind}, authors := ∅, since := none, until_ := none,
          generic_tags := [], limit := none } rfl (by rfl),
      filterMap_eq_replicate _ e.id _ hmem, hretlen]
    rfl

/-- Witness for C10 at a concrete event indexed twice on a fresh engine. -/
theorem c10_no_duplicate_detection_witness :
    (false : Bool) = false ∧
      ((DatabaseIndexes.new.index_event ⟨42, 10, 1, 100, [], false, false⟩).1.to_store = true ∧
        ((DatabaseIndexes.new.index_event
            ⟨42, 10, 1, 100, [], false, false⟩).2.index_event
            ⟨42, 10, 1, 100, [], false, false⟩).1.to_store = true ∧
        ((DatabaseIndexes.new.index_event
            ⟨42, 10, 1, 100, [], false, false⟩).2.index_event
            ⟨42, 10, 1, 100, [], false, false⟩).2.mapping 0 = some 42 ∧
        ((DatabaseIndexes.new.index_event
            ⟨42, 10, 1, 100, [], false, false⟩).2.index_event
            ⟨42, 10, 1, 100, [], false, false⟩).2.mapping 1 = some 42 ∧
        ((DatabaseIndexes.new.index_event
            ⟨42, 10, 1, 100, [], false, false⟩).2.index_event
            ⟨42, 10, 1, 100, [], false, false⟩).2.query
            { ids := [], kinds := {1}, authors := ∅, since := none, until_ := none,
              generic_tags := [], limit := none } = [42, 42]) :=
  ⟨rfl,
    c10_no_duplicate_detection ⟨42, 10, 1, 100, [], false, false⟩
      (DatabaseIndexes.new.index_event ⟨42, 10, 1, 100, [], false, false⟩).2
      ((DatabaseIndexes.new.index_event
          ⟨42, 10, 1, 100, [], false, false⟩).2.index_event
          ⟨42, 10, 1, 100, [], false, false⟩).2 rfl rfl rfl rfl⟩

end Nostr
